import Mathlib

/-!
# Health_Checker: a shallow embedding of the probe, the reporter and the configuration loader

The Go sources embedded here are `checker.go` (`Result`, `Checker`, `NewChecker`, `Ping`),
`reporter.go` (`Stats`, `ConsoleReporter`, `Report`, `GetStats`), `config.go` (`LoadConfig`)
and `aggregator.go` (`Start`, `Stop`).

Conventions.
* `time.Duration` is a signed 64-bit count of nanoseconds; it is an `Int` here, and the only
  arithmetic on it in the sources (`NewChecker`) is wrapped to 64 bits explicitly.
* `uint64` counters are `Nat`s and `atomic.AddUint64` reduces modulo `2^64`.
* A Go `error` is an `Option String`: `none` is `nil`, `some msg` is an error with that text.
* Everything the code obtains from the outside world (the clock, the HTTP exchange, the
  process environment, the file system) is an explicit argument.
-/

namespace HealthChecker

/-! ## checker.go -/

/-- Go `time.Duration`, in nanoseconds. -/
abbrev Duration := Int

/-- Go `time.Millisecond`. -/
def Millisecond : Duration := 1000000

/-- Go `time.Second`. -/
def Second : Duration := 1000000000

/-- Two's complement wrap-around of a mathematical integer to `int64`. -/
def wrapInt64 (x : Int) : Int := (x + 2 ^ 63) % 2 ^ 64 - 2 ^ 63

/-- A value stored in the `Details` map (`interface{}` in the source): `Ping` stores an
`int64` content length and a `string` content type. -/
inductive Detail where
  | int (n : Int)
  | str (s : String)
  deriving DecidableEq, Repr

/-- Go `type Result struct`. `Details` is `none` for a nil map, otherwise the list of
key/value pairs of the map. `Timestamp` is an instant in nanoseconds. -/
structure Result where
  URL : String
  Status : Int
  ResponseTime : Duration
  Error : Option String
  Timestamp : Int
  Details : Option (List (String × Detail))
  IsSlow : Bool
  deriving DecidableEq, Repr

/-- The part of `http.Client` that `NewChecker` configures. -/
structure Client where
  Timeout : Duration
  MaxIdleConns : Int
  IdleConnTimeout : Duration
  DisableCompression : Bool
  deriving DecidableEq, Repr

/-- Go `type Checker struct`. -/
structure Checker where
  URL : String
  Timeout : Duration
  SlowThreshold : Duration
  Client : Client
  deriving DecidableEq, Repr

/-- Go `NewChecker`. -/
def NewChecker (url : String) (timeoutSeconds slowThresholdMs : Int) : Checker :=
  { URL := url
    Timeout := wrapInt64 (timeoutSeconds * Second)
    SlowThreshold := wrapInt64 (slowThresholdMs * Millisecond)
    Client :=
      { Timeout := wrapInt64 (timeoutSeconds * Second)
        MaxIdleConns := 100
        IdleConnTimeout := 90 * Second
        DisableCompression := true } }

/-- The fields of `*http.Response` that `Ping` reads. -/
structure Response where
  StatusCode : Int
  Status : String
  ContentLength : Int
  ContentType : String
  deriving DecidableEq, Repr

/-- What the outside world does during one `Ping`. `elapsed` is the time that has passed
since `start := time.Now()` at the moment the corresponding call returns.
* `requestError`: `http.NewRequestWithContext` returned an error;
* `transportError`: `c.Client.Do(req)` returned an error (connection refused, DNS failure,
  deadline exceeded, ...);
* `response`: `c.Client.Do(req)` returned a response; `elapsed` is what `time.Since(start)`
  reads on the line after. -/
inductive Exchange where
  | requestError (err : String) (elapsed : Duration)
  | transportError (err : String) (elapsed : Duration)
  | response (resp : Response) (elapsed : Duration)
  deriving DecidableEq, Repr

/-- Time from the start of the `Ping` call to the point where the exchange ended. -/
def Exchange.elapsed : Exchange → Duration
  | .requestError _ e => e
  | .transportError _ e => e
  | .response _ e => e

/-- Go `(*Checker).Ping`, with the clock reading `start` and the exchange `ex` supplied by the
environment. -/
def Ping (c : Checker) (start : Int) (ex : Exchange) : Result :=
  let result : Result :=
    { URL := c.URL
      Status := 0
      ResponseTime := 0
      Error := none
      Timestamp := start
      Details := some []
      IsSlow := false }
  match ex with
  | .requestError err _ =>
      { result with Error := some ("failed to create request: " ++ err) }
  | .transportError err _ =>
      { result with Error := some ("request failed: " ++ err) }
  | .response resp elapsed =>
      let result := { result with Status := resp.StatusCode }
      let result := { result with ResponseTime := elapsed }
      let result := { result with
        Details := some [("content_length", Detail.int resp.ContentLength),
                         ("content_type", Detail.str resp.ContentType)] }
      let result := { result with IsSlow := decide (result.ResponseTime > c.SlowThreshold) }
      if resp.StatusCode ≥ 400 then
        { result with
          Error := some ("HTTP " ++ toString resp.StatusCode ++ ": " ++ resp.Status) }
      else
        result

/-- An HTTP server as the tests set one up with `httptest.NewServer`: it answers every
request with `status` after `delay`. -/
structure Server where
  delay : Duration
  status : Int
  statusText : String
  deriving DecidableEq, Repr

/-- The time limit that Go's `net/http` applies to `client.Do(req)`: `client.Timeout` when it
is positive (zero or a negative value means no timeout), and the deadline of the request's
context, if it has one (`none` for `context.Background()`), whichever is shorter. Both are
measured from the start of the call. -/
def timeLimit (client : Client) (ctxDeadline : Option Duration) : Option Duration :=
  match (if client.Timeout > 0 then some client.Timeout else none), ctxDeadline with
  | none, d => d
  | some t, none => some t
  | some t, some d => some (min t d)

/-- The outcome of `client.Do(req)` for a well-formed URL served by `srv`: a transport error
when the time limit runs out before the server answers, the server's reply otherwise. -/
def Do (client : Client) (ctxDeadline : Option Duration) (srv : Server) : Exchange :=
  let reply : Exchange :=
    .response { StatusCode := srv.status, Status := srv.statusText, ContentLength := 0,
                ContentType := "" } srv.delay
  match timeLimit client ctxDeadline with
  | some limit =>
      if limit ≤ srv.delay then .transportError "context deadline exceeded" (max limit 0)
      else reply
  | none => reply

/-- `Ping` against a server: the request is issued by `c.Client.Do(req)` with the context
passed to `Ping`. -/
def PingServer (c : Checker) (start : Int) (ctxDeadline : Option Duration) (srv : Server) :
    Result :=
  Ping c start (Do c.Client ctxDeadline srv)

/-! ## reporter.go -/

/-- Go `type Stats struct`. The four counters are `uint64`. -/
structure Stats where
  TotalChecks : Nat
  SuccessCount : Nat
  FailureCount : Nat
  SlowCount : Nat
  AverageLatency : Duration
  deriving DecidableEq, Repr

/-- Go `atomic.AddUint64(addr, delta)`: the new value of the counter. -/
def AddUint64 (x delta : Nat) : Nat := (x + delta) % 2 ^ 64

/-- Go `type ConsoleReporter struct`. `lastResults` is the map created by
`NewConsoleReporter`, the only constructor (so it is never the nil map): a lookup yields
`none` when the key is absent. -/
structure ConsoleReporter where
  stats : Stats
  lastResults : String → Option Result

/-- One line written to standard output by `Report`. -/
inductive Line where
  | down (url : String) (err : String)
  | slow (url : String) (responseTime : Duration)
  | statusChanged (url : String) (old new : Option String)
  deriving DecidableEq, Repr

/-- The line is a status-change notification. -/
def Line.isStatusChanged : Line → Bool
  | .statusChanged _ _ _ => true
  | _ => false

/-- Go `NewConsoleReporter`. -/
def NewConsoleReporter : ConsoleReporter :=
  { stats := { TotalChecks := 0, SuccessCount := 0, FailureCount := 0, SlowCount := 0,
               AverageLatency := 0 }
    lastResults := fun _ => none }

/-- What one call of `Report` does: the reporter afterwards, the lines printed (in order) and
the returned `error`. -/
structure Reported where
  state : ConsoleReporter
  output : List Line
  err : Option String

/-- Go `(*ConsoleReporter).Report`. -/
def Report (r : ConsoleReporter) (result : Result) : Reported :=
  let stats := { r.stats with TotalChecks := AddUint64 r.stats.TotalChecks 1 }
  -- Update success/failure counts
  let (stats, out) : Stats × List Line :=
    match result.Error with
    | none => ({ stats with SuccessCount := AddUint64 stats.SuccessCount 1 }, [])
    | some e =>
        ({ stats with FailureCount := AddUint64 stats.FailureCount 1 },
         [Line.down result.URL e])
  -- Check for slow responses
  let (stats, out) : Stats × List Line :=
    if result.ResponseTime > Second then
      ({ stats with SlowCount := AddUint64 stats.SlowCount 1 },
       out ++ [Line.slow result.URL result.ResponseTime])
    else (stats, out)
  -- Check for status changes
  let out : List Line :=
    match r.lastResults result.URL with
    | some lastResult =>
        if (lastResult.Error = none ∧ result.Error ≠ none) ∨
           (lastResult.Error ≠ none ∧ result.Error = none) then
          out ++ [Line.statusChanged result.URL lastResult.Error result.Error]
        else out
    | none => out
  -- Update last result
  { state :=
      { stats := stats
        lastResults := fun url => if url = result.URL then some result else r.lastResults url }
    output := out
    err := none }

/-- Go `(*ConsoleReporter).GetStats`. -/
def GetStats (r : ConsoleReporter) : Stats := r.stats

/-- The reporter after a sequence of `Report` calls, in order. -/
def reportAll (r : ConsoleReporter) : List Result → ConsoleReporter
  | [] => r
  | x :: xs => reportAll (Report r x).state xs

/-- The counters of a reporter are those of `n` reports, `a` of them successes and `b`
failures, reduced modulo `2^64`. -/
def Tally (r : ConsoleReporter) (n a b : Nat) : Prop :=
  a + b = n ∧ r.stats.TotalChecks = n % 2 ^ 64 ∧ r.stats.SuccessCount = a % 2 ^ 64 ∧
    r.stats.FailureCount = b % 2 ^ 64

/-! ## config.go -/

/-- Go `type Config struct`. `URLs` is a slice (`[]` for the nil slice); the other fields are
Go `int`s (64 bits wide). -/
structure Config where
  URLs : List String
  CheckInterval : Int
  TimeoutSeconds : Int
  SlowThreshold : Int
  deriving DecidableEq, Repr

/-- The digit loop of Go `strconv.ParseUint(s, 10, 64)`: every byte must be one of
`0` ... `9`; the digits are accumulated most significant first. -/
def parseDigits : List Char → Nat → Option Nat
  | [], acc => some acc
  | c :: cs, acc =>
      if c.isDigit then parseDigits cs (acc * 10 + (c.toNat - 48)) else none

/-- Go `strconv.Atoi` from the standard library, for a 64-bit `int`: an optional `+` or `-`
sign, then at least one decimal digit and nothing else; a value outside
`-2^63 ... 2^63 - 1` is a range error. `none` stands for a non-nil `error`. -/
def Atoi (s : String) : Option Int :=
  match s.toList with
  | [] => none
  | c :: cs =>
      let neg : Bool := c = '-'
      let ds : List Char := if c = '-' ∨ c = '+' then cs else c :: cs
      match ds with
      | [] => none
      | d :: ds' =>
          match parseDigits (d :: ds') 0 with
          | none => none
          | some un =>
              if neg then
                if un ≤ 2 ^ 63 then some (-(un : Int)) else none
              else
                if un < 2 ^ 63 then some (un : Int) else none

/-- Go `os.Getenv`: the value of the variable, or the empty string when it is not set.
The process environment is a partial map from names to values. -/
def Getenv (env : String → Option String) (key : String) : String :=
  (env key).getD ""

deriving instance DecidableEq for Except

/-- Go `LoadConfig`. The environment supplies `readFile` (`os.ReadFile`, `none` on error),
`unmarshal` (`json.Unmarshal` into the given config, `Except.error` on malformed input) and
`env` (the process environment). -/
def LoadConfig (readFile : String → Option String)
    (unmarshal : String → Config → Except String Config)
    (env : String → Option String) (configPath : String) : Except String Config :=
  let config : Config :=
    { URLs := []
      CheckInterval := 30
      TimeoutSeconds := 5
      SlowThreshold := 1000 }
  -- Try to load from file first
  let loaded : Except String Config :=
    if configPath ≠ "" then
      match readFile configPath with
      | some file => unmarshal file config
      | none => .ok config
    else .ok config
  match loaded with
  | .error e => .error e
  | .ok config =>
      -- Override with environment variables if they exist
      let config :=
        let urls := Getenv env "HEALTH_CHECK_URLS"
        if urls ≠ "" then { config with URLs := [urls] } else config
      let config :=
        let interval := Getenv env "CHECK_INTERVAL"
        if interval ≠ "" then
          match Atoi interval with
          | some val => { config with CheckInterval := val }
          | none => config
        else config
      let config :=
        let timeout := Getenv env "TIMEOUT_SECONDS"
        if timeout ≠ "" then
          match Atoi timeout with
          | some val => { config with TimeoutSeconds := val }
          | none => config
        else config
      let config :=
        let threshold := Getenv env "SLOW_THRESHOLD"
        if threshold ≠ "" then
          match Atoi threshold with
          | some val => { config with SlowThreshold := val }
          | none => config
        else config
      .ok config

/-! ### The words of the specification about `LoadConfig` -/

/-- The characters of a decimal integer numeral after its optional sign. -/
def unsignedPart (s : String) : List Char :=
  match s.toList with
  | [] => []
  | c :: cs => if c = '-' ∨ c = '+' then cs else c :: cs

/-- The string is a decimal integer: an optional sign followed by one or more decimal
digits. -/
def isDecimalInteger (s : String) : Bool :=
  unsignedPart s ≠ [] ∧ (unsignedPart s).all Char.isDigit

/-- The number denoted by a string of decimal digits. -/
def digitsValue (ds : List Char) : Nat :=
  ds.foldl (fun n c => n * 10 + (c.toNat - 48)) 0

/-- The integer denoted by a decimal integer numeral. -/
def integerValue (s : String) : Int :=
  match s.toList with
  | [] => 0
  | c :: _ =>
      if c = '-' then -(digitsValue (unsignedPart s) : Int)
      else (digitsValue (unsignedPart s) : Int)

/-- The integer fits a 64-bit Go `int`. -/
def fitsInt (n : Int) : Bool := -(2 ^ 63) ≤ n ∧ n < 2 ^ 63

/-- The three integer settings as the specification words them: the integer value of the
variable when it is set to a decimal integer, the default otherwise. -/
def settingFromEnv (env : String → Option String) (key : String) (dflt : Int) : Int :=
  match env key with
  | some v => if isDecimalInteger v then integerValue v else dflt
  | none => dflt

/-- The same setting, with the numeral also required to fit a Go `int`. -/
def settingFromEnvInRange (env : String → Option String) (key : String) (dflt : Int) : Int :=
  match env key with
  | some v => if isDecimalInteger v ∧ fitsInt (integerValue v) then integerValue v else dflt
  | none => dflt

/-- The `URLs` setting as the specification words it. -/
def urlsFromEnv (env : String → Option String) : List String :=
  match env "HEALTH_CHECK_URLS" with
  | some v => if v ≠ "" then [v] else []
  | none => []

/-- An environment in which only `CHECK_INTERVAL` is set. -/
def envCheckInterval (v : String) : String → Option String :=
  fun k => if k = "CHECK_INTERVAL" then some v else none

/-! ## aggregator.go

The goroutines started by `Start` are modelled as a transition system. A state records where
each goroutine stands; an `Event` is one move of one goroutine (or of the caller), chosen by
the scheduler, together with what the outside world supplies for that move. `step` is a
partial function: `none` means the move is not possible in that state.

Go semantics used:
* a `select` with a `default` branch takes a ready channel case if there is one, and the
  default otherwise; a `select` without `default` waits until some case is ready and, when
  several are, takes any one of them;
* `a.results` is unbuffered: a send completes only together with a receive;
* a closed channel is always ready to receive and yields the zero value;
* closing a closed channel panics.
-/

/-- Go `type Aggregator struct`, the fields fixed by `NewAggregator`. The channels
`results` and `done` live in `RunState`, the reporter too. -/
structure Aggregator where
  checkers : List Checker
  workers : Int
  deriving DecidableEq, Repr

/-- Go `NewAggregator`. -/
def NewAggregator (checkers : List Checker) (workers : Int) : Aggregator :=
  { checkers := checkers, workers := workers }

/-- Where a worker goroutine stands.
* `outer`: at the `select` of the outer `for` loop;
* `inner k`: in the `range` loop, before the `select` for the checker of index `k` (past the
  last checker when `k` is the number of checkers);
* `sending k id result`: `Ping` of checker `k` has returned `result`, the worker waits in
  `a.results <- result`; `id` numbers the `Ping` results in the order they were produced;
* `exited`: returned (and `wg.Done()` called). -/
inductive WorkerState where
  | outer
  | inner (k : Nat)
  | sending (k : Nat) (id : Nat) (result : Result)
  | exited
  deriving DecidableEq, Repr

/-- Where the result processor goroutine stands.
* `selecting`: at its `select`;
* `reporting src result`: it has received `result` and is about to call
  `a.reporter.Report(result)`; `src` is the number of the `Ping` result when it came from a
  worker, `none` when it is the zero value read from the closed channel;
* `exited`: returned. -/
inductive ConsumerState where
  | selecting
  | reporting (src : Option Nat) (result : Result)
  | exited
  deriving DecidableEq, Repr

/-- The state of a run of `Start`. `ctxDone` and `done` say whether `ctx.Done()` and
`a.done` are closed, `closed` whether `a.results` is. `workers i` is the state of the worker
of index `i` (`exited` for indices that were never started). The last three fields are a
log: the results returned by `Ping`, in order; the numbers of the results the result
processor received from workers, in order; the arguments of the `Report` calls, in order. -/
structure RunState where
  ctxDone : Bool
  done : Bool
  closed : Bool
  workers : Nat → WorkerState
  consumer : ConsumerState
  reporter : ConsoleReporter
  produced : List Result
  handed : List Nat
  reported : List (Option Nat × Result)

/-- The zero value of `Result`, which a receive from the closed channel yields. -/
def zeroResult : Result :=
  { URL := "", Status := 0, ResponseTime := 0, Error := none, Timestamp := 0,
    Details := none, IsSlow := false }

/-- Replace the state of worker `i`. -/
def setWorker (ws : Nat → WorkerState) (i : Nat) (w : WorkerState) : Nat → WorkerState :=
  fun j => if j = i then w else ws j

/-- Go `(*Aggregator).Start`, up to the point where it returns: `a.workers` workers at their
outer `select`, the result processor at its `select`, nothing closed. -/
def Start (a : Aggregator) (reporter : ConsoleReporter) : RunState :=
  { ctxDone := false
    done := false
    closed := false
    workers := fun i => if i < a.workers.toNat then .outer else .exited
    consumer := .selecting
    reporter := reporter
    produced := []
    handed := []
    reported := [] }

/-- Go `(*Aggregator).Stop`: `close(a.done)`. Closing it a second time panics (`none`). -/
def Stop (s : RunState) : Option RunState :=
  if s.done then none else some { s with done := true }

/-- One move.
* `cancel`: the context is cancelled (or its deadline passes);
* `stop`: the caller runs `Stop()`;
* `worker i start ex`: worker `i` runs up to its next `select` or send; when it calls `Ping`,
  `start` and `ex` are the clock reading and the HTTP exchange of that call;
* `handoff i`: the send of worker `i` meets the receive of the result processor;
* `report`: the result processor calls `Report` on what it received;
* `consumerExit`: the result processor takes `<-ctx.Done()` or `<-a.done`;
* `recvClosed`: the result processor receives from the closed `a.results`;
* `close`: `wg.Wait()` has returned and the third goroutine closes `a.results`. -/
inductive Event where
  | cancel
  | stop
  | worker (i : Nat) (start : Int) (ex : Exchange)
  | handoff (i : Nat)
  | report
  | consumerExit
  | recvClosed
  | close
  deriving DecidableEq, Repr

/-- The transition function of a run of the aggregator `a`. -/
def step (a : Aggregator) (s : RunState) : Event → Option RunState
  | .cancel => some { s with ctxDone := true }
  | .stop => Stop s
  | .worker i start ex =>
      match s.workers i with
      | .outer =>
          if s.ctxDone ∨ s.done then
            some { s with workers := setWorker s.workers i .exited }
          else
            some { s with workers := setWorker s.workers i (.inner 0) }
      | .inner k =>
          match a.checkers[k]? with
          | none => some { s with workers := setWorker s.workers i .outer }
          | some checker =>
              if s.ctxDone ∨ s.done then
                some { s with workers := setWorker s.workers i .exited }
              else
                let result := Ping checker start ex
                some { s with
                  workers := setWorker s.workers i (.sending k s.produced.length result)
                  produced := s.produced ++ [result] }
      | .sending _ _ _ => none
      | .exited => none
  | .handoff i =>
      match s.workers i, s.consumer with
      | .sending k id result, .selecting =>
          some { s with
            workers := setWorker s.workers i (.inner (k + 1))
            consumer := .reporting (some id) result
            handed := s.handed ++ [id] }
      | _, _ => none
  | .report =>
      match s.consumer with
      | .reporting src result =>
          some { s with
            reporter := (Report s.reporter result).state
            reported := s.reported ++ [(src, result)]
            consumer := .selecting }
      | _ => none
  | .consumerExit =>
      match s.consumer with
      | .selecting => if s.ctxDone ∨ s.done then some { s with consumer := .exited } else none
      | _ => none
  | .recvClosed =>
      match s.consumer with
      | .selecting =>
          if s.closed then some { s with consumer := .reporting none zeroResult } else none
      | _ => none
  | .close =>
      if s.closed = false ∧ (List.range a.workers.toNat).all (fun i => s.workers i = .exited)
      then some { s with closed := true }
      else none

/-- Run a schedule: the moves in order; `none` as soon as one is not possible. -/
def run (a : Aggregator) (s : RunState) : List Event → Option RunState
  | [] => some s
  | e :: es =>
      match step a s e with
      | some s1 => run a s1 es
      | none => none

/-- The numbers of the `Ping` results that `Report` was called on, in order. -/
def reportedIds (s : RunState) : List Nat := s.reported.filterMap Prod.fst

/-- The number of the `Ping` result the result processor holds between receiving it and
reporting it, if any. -/
def heldId : ConsumerState → List Nat
  | .reporting (some id) _ => [id]
  | _ => []

/-- Worker `i` waits to hand over the `Ping` result number `id`. -/
def Waiting (s : RunState) (id : Nat) : Prop :=
  ∃ i k result, s.workers i = .sending k id result

/-- What holds in every state of a run that started with the reporter `r0`: the bookkeeping
that ties the `Report` calls to the `Ping` results. -/
structure Inv (r0 : ConsoleReporter) (s : RunState) : Prop where
  order : s.handed = reportedIds s ++ heldId s.consumer
  nodup : s.handed.Nodup
  handed_lt : ∀ id ∈ s.handed, id < s.produced.length
  waiting : ∀ i k id r, s.workers i = .sending k id r →
    s.produced[id]? = some r ∧ id ∉ s.handed
  waiting_inj : ∀ i j k1 k2 id r1 r2, s.workers i = .sending k1 id r1 →
    s.workers j = .sending k2 id r2 → i = j
  cover : ∀ id, id < s.produced.length → id ∈ s.handed ∨ Waiting s id
  held : ∀ id r, s.consumer = .reporting (some id) r → s.produced[id]? = some r
  reported_ok : ∀ id r, (some id, r) ∈ s.reported → s.produced[id]? = some r
  reporter_eq : s.reporter = reportAll r0 (s.reported.map Prod.snd)

/-- The aggregator of a run with one worker and one endpoint. -/
def oneWorker : Aggregator := NewAggregator [NewChecker "http://127.0.0.1:8080" 1 100] 1

/-- A schedule in which `Stop()` comes while the worker is in `Ping`: the worker enters its
loop and pings (a 200 reply after 50 ms), `Stop()` is called, the result processor takes
`<-a.done`. -/
def stopDuringPing : List Event :=
  [.worker 0 0 (.response { StatusCode := 200, Status := "200 OK", ContentLength := 0,
                            ContentType := "" } 50000000),
   .worker 0 0 (.response { StatusCode := 200, Status := "200 OK", ContentLength := 0,
                            ContentType := "" } 50000000),
   .stop,
   .consumerExit]

/-- A schedule in which the result of the worker is handed over and reported before
`Stop()`. -/
def reportThenStop : List Event :=
  [.worker 0 0 (.response { StatusCode := 200, Status := "200 OK", ContentLength := 0,
                            ContentType := "" } 50000000),
   .worker 0 0 (.response { StatusCode := 200, Status := "200 OK", ContentLength := 0,
                            ContentType := "" } 50000000),
   .handoff 0,
   .report,
   .stop,
   .consumerExit]

/-! ## Fixtures of the test files -/

/-- The successful `Result` of `TestReporter` (the `Details` field is left nil there). -/
def testResult : Result :=
  { URL := "https://test.com"
    Status := 200
    ResponseTime := 500 * Millisecond
    Error := none
    Timestamp := 0
    Details := none
    IsSlow := false }

/-- The failed `Result` of `TestReporter`: the same with `Error = http.ErrServerClosed`. -/
def failedResult : Result :=
  { testResult with Error := some "http: Server closed" }

/-- A `Result` as `Ping` produces it for a checker built by `NewChecker(url, 1, 100)` (slow
threshold 100 ms) when a 200 reply takes 500 ms: `IsSlow` is true. -/
def flaggedResult : Result :=
  Ping (NewChecker "https://test.com" 1 100) 0
    (.response { StatusCode := 200, Status := "200 OK", ContentLength := 0, ContentType := "" }
      (500 * Millisecond))

/-- A `Result` as `Ping` produces it for a checker built by `NewChecker(url, 5, 3000)` (slow
threshold 3 s) when a 200 reply takes 2 s: `IsSlow` is false. -/
def unflaggedResult : Result :=
  Ping (NewChecker "https://test.com" 5 3000) 0
    (.response { StatusCode := 200, Status := "200 OK", ContentLength := 0, ContentType := "" }
      (2 * Second))

/-- The most recent `Result` for `url` in a history of reported results (oldest first), if
there is one. -/
def lastFor : List Result → String → Option Result
  | [], _ => none
  | x :: xs, url =>
      match lastFor xs url with
      | some y => some y
      | none => if x.URL = url then some x else none

/-- A successful `Result` for a second URL. -/
def otherResult : Result := { testResult with URL := "https://other.com" }

/-- A failed `Result` for the second URL. -/
def otherFailed : Result := { failedResult with URL := "https://other.com" }

/-- The number of status-change notifications among printed lines. -/
def statusChanges (out : List Line) : Nat := out.countP Line.isStatusChanged

/-- The server of `TestChecker`: status 200 after 50 ms. -/
def testServer : Server :=
  { delay := 50 * Millisecond, status := 200, statusText := "200 OK" }

/-- The checker of the second half of `TestChecker`: `NewChecker(server.URL, 1, 100)` with
its `Timeout` field then set to 1 ms. -/
def testTimeoutChecker : Checker :=
  { NewChecker "http://127.0.0.1:8080" 1 100 with Timeout := 1 * Millisecond }

/-- A checker with a negative slow threshold, as `NewChecker(url, 5, -1)` builds it (for
instance from `SLOW_THRESHOLD=-1`). -/
def negativeThresholdChecker : Checker := NewChecker "http://127.0.0.1:8080" 5 (-1)

end HealthChecker

/-! # Theorems -/

namespace HealthChecker

/-! ## Reporter counters -/

/-- `Report` never returns an error. -/
theorem Report_err (s : ConsoleReporter) (r : Result) : (Report s r).err = none := rfl

/-- `TotalChecks` after `Report`. -/
theorem Report_TotalChecks (s : ConsoleReporter) (r : Result) :
    (Report s r).state.stats.TotalChecks = (s.stats.TotalChecks + 1) % 2 ^ 64 := by
  cases hE : r.Error <;> by_cases hs : r.ResponseTime > Second <;>
    simp [Report, AddUint64, hE, hs]

/-- `SuccessCount` after `Report`. -/
theorem Report_SuccessCount (s : ConsoleReporter) (r : Result) :
    (Report s r).state.stats.SuccessCount =
      if r.Error = none then (s.stats.SuccessCount + 1) % 2 ^ 64 else s.stats.SuccessCount := by
  cases hE : r.Error <;> by_cases hs : r.ResponseTime > Second <;>
    simp [Report, AddUint64, hE, hs]

/-- `FailureCount` after `Report`. -/
theorem Report_FailureCount (s : ConsoleReporter) (r : Result) :
    (Report s r).state.stats.FailureCount =
      if r.Error = none then s.stats.FailureCount else (s.stats.FailureCount + 1) % 2 ^ 64 := by
  cases hE : r.Error <;> by_cases hs : r.ResponseTime > Second <;>
    simp [Report, AddUint64, hE, hs]

/-- `SlowCount` after `Report`: the test is on `ResponseTime`, against one second. -/
theorem Report_SlowCount (s : ConsoleReporter) (r : Result) :
    (Report s r).state.stats.SlowCount =
      if r.ResponseTime > Second then (s.stats.SlowCount + 1) % 2 ^ 64
      else s.stats.SlowCount := by
  cases hE : r.Error <;> by_cases hs : r.ResponseTime > Second <;>
    simp [Report, AddUint64, hE, hs]

/-- C1: for every reporter state and every `Result` (whatever its `Details` and `URL`),
`Report` returns a nil error, adds one to `TotalChecks`, and adds one to exactly one of
`SuccessCount` and `FailureCount`, leaving the other as it was: `SuccessCount` when `Error`
is absent, `FailureCount` when it is present. The additions are those of `uint64`
(`atomic.AddUint64`), so they are exact whenever the counter is below `2^64 - 1`. -/
theorem Report_counts (s : ConsoleReporter) (r : Result) :
    (Report s r).err = none ∧
    (Report s r).state.stats.TotalChecks = (s.stats.TotalChecks + 1) % 2 ^ 64 ∧
    (s.stats.TotalChecks + 1 < 2 ^ 64 →
      (Report s r).state.stats.TotalChecks = s.stats.TotalChecks + 1) ∧
    (r.Error = none →
      (Report s r).state.stats.SuccessCount = (s.stats.SuccessCount + 1) % 2 ^ 64 ∧
      (s.stats.SuccessCount + 1 < 2 ^ 64 →
        (Report s r).state.stats.SuccessCount = s.stats.SuccessCount + 1) ∧
      (Report s r).state.stats.FailureCount = s.stats.FailureCount) ∧
    (r.Error ≠ none →
      (Report s r).state.stats.FailureCount = (s.stats.FailureCount + 1) % 2 ^ 64 ∧
      (s.stats.FailureCount + 1 < 2 ^ 64 →
        (Report s r).state.stats.FailureCount = s.stats.FailureCount + 1) ∧
      (Report s r).state.stats.SuccessCount = s.stats.SuccessCount) := by
  refine ⟨Report_err s r, Report_TotalChecks s r, ?_, ?_, ?_⟩
  · intro hlt
    rw [Report_TotalChecks, Nat.mod_eq_of_lt hlt]
  · intro hE
    refine ⟨?_, ?_, ?_⟩
    · rw [Report_SuccessCount, if_pos hE]
    · intro hlt
      rw [Report_SuccessCount, if_pos hE, Nat.mod_eq_of_lt hlt]
    · rw [Report_FailureCount, if_pos hE]
  · intro hE
    refine ⟨?_, ?_, ?_⟩
    · rw [Report_FailureCount, if_neg hE]
    · intro hlt
      rw [Report_FailureCount, if_neg hE, Nat.mod_eq_of_lt hlt]
    · rw [Report_SuccessCount, if_neg hE]

/-- C1 at the two calls of `TestReporter`: one success, then one failure. -/
theorem Report_counts_witness :
    testResult.Error = none ∧ failedResult.Error ≠ none ∧
    (Report NewConsoleReporter testResult).state.stats.SuccessCount = 1 ∧
    (Report (Report NewConsoleReporter testResult).state failedResult).state.stats.FailureCount
      = 1 ∧
    (Report (Report NewConsoleReporter testResult).state failedResult).state.stats.SuccessCount
      = 1 := by
  have h1 := (Report_counts NewConsoleReporter testResult).2.2.2.1 rfl
  have h2 := (Report_counts (Report NewConsoleReporter testResult).state failedResult).2.2.2.2
    (by decide)
  refine ⟨rfl, by decide, ?_, ?_, ?_⟩
  · exact h1.1.trans (by decide)
  · exact h2.1.trans (by rw [h1.2.2]; decide)
  · exact h2.2.2.trans (h1.1.trans (by decide))

/-- C2: `Report` does not read `IsSlow`. A `Result` that `Ping` flagged slow (500 ms against
a 100 ms threshold) leaves `SlowCount` at 0, and one that `Ping` did not flag (2 s against a
3 s threshold) raises it to 1: the counter follows `ResponseTime > time.Second`. -/
theorem Report_SlowCount_not_IsSlow :
    flaggedResult.IsSlow = true ∧
    (Report NewConsoleReporter flaggedResult).state.stats.SlowCount = 0 ∧
    unflaggedResult.IsSlow = false ∧
    (Report NewConsoleReporter unflaggedResult).state.stats.SlowCount = 1 := by
  refine ⟨by decide, ?_, by decide, ?_⟩
  · rw [Report_SlowCount]; decide
  · rw [Report_SlowCount]; decide

/-! ## Conservation -/

theorem Tally_init : Tally NewConsoleReporter 0 0 0 := by
  simp [Tally, NewConsoleReporter]

theorem Tally_step {r : ConsoleReporter} {n a b : Nat} (h : Tally r n a b) (x : Result) :
    ∃ a1 b1, Tally (Report r x).state (n + 1) a1 b1 := by
  obtain ⟨hab, hT, hS, hF⟩ := h
  by_cases hE : x.Error = none
  · refine ⟨a + 1, b, by omega, ?_, ?_, ?_⟩
    · rw [Report_TotalChecks, hT]; simp [Nat.add_mod]
    · rw [Report_SuccessCount, if_pos hE, hS]; simp [Nat.add_mod]
    · rw [Report_FailureCount, if_pos hE, hF]
  · refine ⟨a, b + 1, by omega, ?_, ?_, ?_⟩
    · rw [Report_TotalChecks, hT]; simp [Nat.add_mod]
    · rw [Report_SuccessCount, if_neg hE, hS]
    · rw [Report_FailureCount, if_neg hE, hF]; simp [Nat.add_mod]

theorem Tally_reportAll (xs : List Result) :
    ∀ (r : ConsoleReporter) (n a b : Nat), Tally r n a b →
      ∃ a1 b1, Tally (reportAll r xs) (n + xs.length) a1 b1 := by
  induction xs with
  | nil => intro r n a b h; exact ⟨a, b, by simpa [reportAll] using h⟩
  | cons x xs ih =>
      intro r n a b h
      obtain ⟨a1, b1, h1⟩ := Tally_step h x
      obtain ⟨a2, b2, h2⟩ := ih _ _ _ _ h1
      refine ⟨a2, b2, ?_⟩
      have : n + (x :: xs).length = n + 1 + xs.length := by simp; omega
      rw [this]
      exact h2

/-- C3: in every state reached from `NewConsoleReporter()` by a finite sequence of `Report`
calls, `GetStats()` returns counters with `TotalChecks == SuccessCount + FailureCount`, the
sum being that of `uint64`; with fewer than `2^64` calls no counter has wrapped and the
equation holds between the numbers themselves. -/
theorem GetStats_conservation (xs : List Result) :
    (GetStats (reportAll NewConsoleReporter xs)).TotalChecks =
      ((GetStats (reportAll NewConsoleReporter xs)).SuccessCount +
        (GetStats (reportAll NewConsoleReporter xs)).FailureCount) % 2 ^ 64 ∧
    (xs.length < 2 ^ 64 →
      (GetStats (reportAll NewConsoleReporter xs)).TotalChecks =
        (GetStats (reportAll NewConsoleReporter xs)).SuccessCount +
          (GetStats (reportAll NewConsoleReporter xs)).FailureCount) := by
  obtain ⟨a, b, hab, hT, hS, hF⟩ := Tally_reportAll xs NewConsoleReporter 0 0 0 Tally_init
  simp only [GetStats]
  constructor
  · rw [hT, hS, hF, ← hab, ← Nat.add_mod]
  · intro hlt
    have hn : 0 + xs.length < 2 ^ 64 := by omega
    have ha : a < 2 ^ 64 := by omega
    have hb : b < 2 ^ 64 := by omega
    rw [hT, hS, hF, Nat.mod_eq_of_lt hn, Nat.mod_eq_of_lt ha, Nat.mod_eq_of_lt hb]
    omega

/-- C3 after the two calls of `TestReporter`. -/
theorem GetStats_conservation_witness :
    [testResult, failedResult].length < 2 ^ 64 ∧
    (GetStats (reportAll NewConsoleReporter [testResult, failedResult])).TotalChecks =
      (GetStats (reportAll NewConsoleReporter [testResult, failedResult])).SuccessCount +
        (GetStats (reportAll NewConsoleReporter [testResult, failedResult])).FailureCount :=
  ⟨by decide, (GetStats_conservation [testResult, failedResult]).2 (by decide)⟩

/-! ## Transition detection -/

/-- The lines `Report` prints before the status-change check contain no status-change
notification; the check appends at most one. -/
theorem Report_statusChanges (s : ConsoleReporter) (r : Result) :
    statusChanges (Report s r).output =
      match s.lastResults r.URL with
      | some prev => if prev.Error.isSome ≠ r.Error.isSome then 1 else 0
      | none => 0 := by
  cases hL : s.lastResults r.URL with
  | none =>
      cases hE : r.Error <;> by_cases hs : r.ResponseTime > Second <;>
        simp [Report, statusChanges, hL, hE, hs, Line.isStatusChanged]
  | some prev =>
      cases hE : r.Error <;> cases hP : prev.Error <;>
        by_cases hs : r.ResponseTime > Second <;>
        simp [Report, statusChanges, hL, hE, hP, hs, Line.isStatusChanged]

/-- The record kept for the URL just reported. -/
theorem Report_lastResults_self (s : ConsoleReporter) (r : Result) :
    (Report s r).state.lastResults r.URL = some r := by
  simp [Report]

/-- A status-change notification printed by `Report` is the one for the reported URL. -/
theorem Report_statusChanged_mem (s : ConsoleReporter) (r : Result) (l : Line)
    (hl : l ∈ (Report s r).output) (hc : l.isStatusChanged = true) :
    ∃ prev, s.lastResults r.URL = some prev ∧
      l = Line.statusChanged r.URL prev.Error r.Error := by
  cases l with
  | down u e => simp [Line.isStatusChanged] at hc
  | slow u t => simp [Line.isStatusChanged] at hc
  | statusChanged u o n =>
      cases hL : s.lastResults r.URL with
      | none =>
          exfalso
          revert hl
          cases hE : r.Error <;> by_cases hs : r.ResponseTime > Second <;>
            simp [Report, hL, hE, hs]
      | some prev =>
          refine ⟨prev, rfl, ?_⟩
          revert hl
          cases hE : r.Error <;> cases hP : prev.Error <;>
            by_cases hs : r.ResponseTime > Second <;>
            simp [Report, hL, hE, hP, hs]

/-- `Report` records the result under its own URL and leaves every other record as it
was. -/
theorem Report_lastResults (s : ConsoleReporter) (r : Result) (url : String) :
    (Report s r).state.lastResults url =
      if url = r.URL then some r else s.lastResults url := by
  simp [Report]

/-- After a history of reports, the record for a URL is the most recent result for that URL
in the history, or the record held before when the history has none. -/
theorem reportAll_lastResults (xs : List Result) :
    ∀ (s : ConsoleReporter) (url : String),
      (reportAll s xs).lastResults url =
        match lastFor xs url with
        | some y => some y
        | none => s.lastResults url := by
  induction xs with
  | nil => intro s url; simp [reportAll, lastFor]
  | cons x xs ih =>
      intro s url
      simp only [reportAll, lastFor]
      rw [ih, Report_lastResults]
      cases lastFor xs url with
      | some y => rfl
      | none =>
          by_cases hu : x.URL = url
          · simp [hu]
          · have hu2 : ¬ url = x.URL := fun h => hu h.symm
            simp [hu, hu2]

/-- A history without any result for `url` has no most recent one. -/
theorem lastFor_eq_none (xs : List Result) (url : String) (h : ∀ y ∈ xs, y.URL ≠ url) :
    lastFor xs url = none := by
  induction xs with
  | nil => rfl
  | cons x xs ih =>
      have h1 : lastFor xs url = none := ih (fun y hy => h y (List.mem_cons_of_mem _ hy))
      have h2 : ¬ x.URL = url := h x (List.mem_cons_self _ _)
      simp [lastFor, h1, h2]

/-- C4: `Report(r)` prints a status-change notification exactly when a previous `Result` is
recorded for `r.URL` and its failure presence differs from that of `r`; it prints at most
one, and it is the one for `r.URL`. The record for `r.URL` becomes `r` and the records of
all other URLs are left as they were, so after any history of reports from a fresh reporter
the recorded previous `Result` of a URL is the most recent one reported for that URL: the
notification compares `r` with that one, whatever was reported for other URLs in between,
and the first `Result` of a URL gives no notification. Hence, from a fresh reporter, a
success for `E` followed by two failures for `E` gives no notification on the first call,
exactly one (for `E`) on the second, and none on the third. -/
theorem Report_transition (s : ConsoleReporter) (r : Result) :
    ((∃ l ∈ (Report s r).output, l.isStatusChanged = true) ↔
      ∃ prev, s.lastResults r.URL = some prev ∧ prev.Error.isSome ≠ r.Error.isSome) ∧
    statusChanges (Report s r).output ≤ 1 ∧
    (∀ l ∈ (Report s r).output, l.isStatusChanged = true →
      ∃ prev, s.lastResults r.URL = some prev ∧
        l = Line.statusChanged r.URL prev.Error r.Error) ∧
    (∀ (E : String) (a b c : Result), a.URL = E → b.URL = E → c.URL = E →
      a.Error = none → b.Error ≠ none → c.Error ≠ none →
      statusChanges (Report NewConsoleReporter a).output = 0 ∧
      statusChanges (Report (Report NewConsoleReporter a).state b).output = 1 ∧
      Line.statusChanged E none b.Error ∈
        (Report (Report NewConsoleReporter a).state b).output ∧
      statusChanges
        (Report (Report (Report NewConsoleReporter a).state b).state c).output = 0) ∧
    (∀ url : String, (Report s r).state.lastResults url =
      if url = r.URL then some r else s.lastResults url) ∧
    (∀ (xs : List Result) (url : String),
      (reportAll NewConsoleReporter xs).lastResults url = lastFor xs url) ∧
    (∀ (xs : List Result) (x : Result),
      statusChanges (Report (reportAll NewConsoleReporter xs) x).output =
        match lastFor xs x.URL with
        | some prev => if prev.Error.isSome ≠ x.Error.isSome then 1 else 0
        | none => 0) ∧
    (∀ (xs : List Result) (x : Result), (∀ y ∈ xs, y.URL ≠ x.URL) →
      statusChanges (Report (reportAll NewConsoleReporter xs) x).output = 0) := by
  have hist : ∀ (xs : List Result) (url : String),
      (reportAll NewConsoleReporter xs).lastResults url = lastFor xs url := by
    intro xs url
    rw [reportAll_lastResults]
    cases lastFor xs url <;> rfl
  refine ⟨?_, ?_, Report_statusChanged_mem s r, ?_, Report_lastResults s r, hist, ?_, ?_⟩
  · have hpos : (∃ l ∈ (Report s r).output, l.isStatusChanged = true) ↔
        0 < statusChanges (Report s r).output := by
      unfold statusChanges
      exact List.countP_pos_iff.symm
    rw [hpos, Report_statusChanges]
    cases hL : s.lastResults r.URL with
    | none => simp
    | some prev =>
        by_cases hd : prev.Error.isSome ≠ r.Error.isSome
        · simp [hd]
        · simp [hd]
  · rw [Report_statusChanges]
    cases hL : s.lastResults r.URL with
    | none => simp
    | some prev => dsimp only; split <;> omega
  · intro E a b c ha hb hc hae hbe hce
    obtain ⟨eb, heb⟩ := Option.ne_none_iff_exists'.mp hbe
    obtain ⟨ec, hec⟩ := Option.ne_none_iff_exists'.mp hce
    have h1 : statusChanges (Report NewConsoleReporter a).output = 0 := by
      rw [Report_statusChanges]; simp [NewConsoleReporter]
    have hrec1 : (Report NewConsoleReporter a).state.lastResults b.URL = some a := by
      rw [hb, ← ha]; exact Report_lastResults_self _ _
    have h2 : statusChanges (Report (Report NewConsoleReporter a).state b).output = 1 := by
      rw [Report_statusChanges, hrec1]; simp [hae, heb]
    have hrec2 :
        (Report (Report NewConsoleReporter a).state b).state.lastResults c.URL = some b := by
      rw [hc, ← hb]; exact Report_lastResults_self _ _
    have h3 : statusChanges
        (Report (Report (Report NewConsoleReporter a).state b).state c).output = 0 := by
      rw [Report_statusChanges, hrec2]; simp [heb, hec]
    refine ⟨h1, h2, ?_, h3⟩
    have hpos : 0 < statusChanges (Report (Report NewConsoleReporter a).state b).output := by
      omega
    obtain ⟨l, hl, hlc⟩ := List.countP_pos_iff.mp hpos
    obtain ⟨prev, hprev, hleq⟩ := Report_statusChanged_mem _ _ l hl hlc
    rw [hrec1] at hprev
    cases hprev
    rw [hleq, hb, hae] at hl
    exact hl
  · intro xs x
    rw [Report_statusChanges, hist]
  · intro xs x hx
    rw [Report_statusChanges, hist, lastFor_eq_none xs x.URL hx]

/-- C4 on the results of `TestReporter`: success, failure, failure for one URL gives 0, 1, 0
notifications; with a second URL in play, a failure for the second URL after a success for
the first gives none (it is the first `Result` of that URL), and a failure for the first URL
after successes for both gives one. -/
theorem Report_transition_witness :
    testResult.Error = none ∧ failedResult.Error ≠ none ∧
    (statusChanges (Report NewConsoleReporter testResult).output = 0 ∧
     statusChanges (Report (Report NewConsoleReporter testResult).state failedResult).output
      = 1 ∧
     Line.statusChanged "https://test.com" none failedResult.Error ∈
      (Report (Report NewConsoleReporter testResult).state failedResult).output ∧
     statusChanges
      (Report (Report (Report NewConsoleReporter testResult).state failedResult).state
        failedResult).output = 0) ∧
    (∀ y ∈ [testResult], y.URL ≠ otherFailed.URL) ∧
    statusChanges (Report (reportAll NewConsoleReporter [testResult]) otherFailed).output
      = 0 ∧
    statusChanges
      (Report (reportAll NewConsoleReporter [testResult, otherResult]) failedResult).output
      = 1 ∧
    (Report (reportAll NewConsoleReporter [testResult]) otherFailed).state.lastResults
      "https://test.com" = some testResult :=
  ⟨rfl, by decide,
    (Report_transition NewConsoleReporter testResult).2.2.2.1 "https://test.com" testResult
      failedResult failedResult rfl rfl rfl rfl (by decide) (by decide),
    by decide,
    (Report_transition NewConsoleReporter testResult).2.2.2.2.2.2.2 [testResult] otherFailed
      (by decide),
    ((Report_transition NewConsoleReporter testResult).2.2.2.2.2.2.1
      [testResult, otherResult] failedResult).trans (by decide),
    by
      rw [(Report_transition (reportAll NewConsoleReporter [testResult]) otherFailed).2.2.2.2.1
        "https://test.com", if_neg (by decide),
        (Report_transition NewConsoleReporter testResult).2.2.2.2.2.1 [testResult]
          "https://test.com"]
      decide⟩

/-! ## Ping -/

/-- C5, as stated, fails: with a negative slow threshold a failed exchange gives
`IsSlow = false` although `ResponseTime` (0) exceeds the threshold. -/
theorem Ping_IsSlow_negative_threshold :
    negativeThresholdChecker.SlowThreshold = -1000000 ∧
    (Ping negativeThresholdChecker 0 (.transportError "connection refused" 1000)).IsSlow
      = false ∧
    decide ((Ping negativeThresholdChecker 0 (.transportError "connection refused" 1000)).ResponseTime
      > negativeThresholdChecker.SlowThreshold) = true := by
  decide

/-- C5, amended: when a response was received (any status), or when the slow threshold is
not negative, the `Result` of `Ping` has `IsSlow == (ResponseTime > SlowThreshold)`, whether
or not `Error` is present. -/
theorem Ping_IsSlow (c : Checker) (start : Int) (ex : Exchange)
    (h : (∃ resp e, ex = .response resp e) ∨ 0 ≤ c.SlowThreshold) :
    (Ping c start ex).IsSlow = decide ((Ping c start ex).ResponseTime > c.SlowThreshold) := by
  cases ex with
  | requestError err e =>
      rcases h with ⟨resp, e1, h⟩ | h
      · cases h
      · have : ¬ (0 : Int) > c.SlowThreshold := not_lt.mpr h
        simp [Ping, this]
  | transportError err e =>
      rcases h with ⟨resp, e1, h⟩ | h
      · cases h
      · have : ¬ (0 : Int) > c.SlowThreshold := not_lt.mpr h
        simp [Ping, this]
  | response resp e =>
      by_cases h4 : resp.StatusCode ≥ 400 <;> simp [Ping, h4]

/-- C5 amended, on a 500 reply that took 200 ms against a 100 ms threshold. -/
theorem Ping_IsSlow_witness :
    (Ping (NewChecker "http://127.0.0.1:8080" 1 100) 0
      (.response { StatusCode := 500, Status := "500 Internal Server Error",
                   ContentLength := 0, ContentType := "" } (200 * Millisecond))).IsSlow
      = true ∧
    (Ping (NewChecker "http://127.0.0.1:8080" 1 100) 0
      (.response { StatusCode := 500, Status := "500 Internal Server Error",
                   ContentLength := 0, ContentType := "" } (200 * Millisecond))).Error
      ≠ none := by
  refine ⟨?_, by simp [Ping]⟩
  rw [Ping_IsSlow _ _ _ (Or.inl ⟨_, _, rfl⟩)]
  decide

/-- C6: the `Result` of `Ping` has `Error` present exactly when request construction
failed, the transport call failed, or the received status code is at least 400. In the
first two cases `Status` is 0; when a response was received `Status` is its status code,
which is at least 400 when `Error` is present and below 400 when it is absent. -/
theorem Ping_Error_Status (c : Checker) (start : Int) (ex : Exchange) :
    ((Ping c start ex).Error ≠ none ↔
      (∃ err e, ex = .requestError err e) ∨ (∃ err e, ex = .transportError err e) ∨
        (∃ resp e, ex = .response resp e ∧ resp.StatusCode ≥ 400)) ∧
    (∀ err e, ex = .requestError err e ∨ ex = .transportError err e →
      (Ping c start ex).Status = 0) ∧
    (∀ resp e, ex = .response resp e →
      (Ping c start ex).Status = resp.StatusCode ∧
      ((Ping c start ex).Error ≠ none → (Ping c start ex).Status ≥ 400)) ∧
    ((Ping c start ex).Error = none →
      (∃ resp e, ex = .response resp e ∧ (Ping c start ex).Status = resp.StatusCode) ∧
      (Ping c start ex).Status < 400) := by
  cases ex with
  | requestError err e => simp [Ping]
  | transportError err e => simp [Ping]
  | response resp e =>
      by_cases h4 : resp.StatusCode ≥ 400
      · simp [Ping, h4]
      · simp [Ping, h4]
        omega

/-- C6 on a 404 reply. -/
theorem Ping_Error_Status_witness :
    (Ping (NewChecker "http://127.0.0.1:8080" 1 100) 0
      (.response { StatusCode := 404, Status := "404 Not Found", ContentLength := 0,
                   ContentType := "" } 1000)).Status = 404 ∧
    ((Ping (NewChecker "http://127.0.0.1:8080" 1 100) 0
      (.response { StatusCode := 404, Status := "404 Not Found", ContentLength := 0,
                   ContentType := "" } 1000)).Error ≠ none →
     (Ping (NewChecker "http://127.0.0.1:8080" 1 100) 0
      (.response { StatusCode := 404, Status := "404 Not Found", ContentLength := 0,
                   ContentType := "" } 1000)).Status ≥ 400) :=
  (Ping_Error_Status (NewChecker "http://127.0.0.1:8080" 1 100) 0
    (.response { StatusCode := 404, Status := "404 Not Found", ContentLength := 0,
                 ContentType := "" } 1000)).2.2.1 _ _ rfl

/-- C7, as stated, fails: a transport failure 1 ms after the start of `Ping` yields
`ResponseTime = 0`, not the elapsed millisecond. -/
theorem Ping_failure_ResponseTime_not_elapsed :
    (Exchange.transportError "context deadline exceeded" (1 * Millisecond)).elapsed
      = 1000000 ∧
    (Ping testTimeoutChecker 0
      (.transportError "context deadline exceeded" (1 * Millisecond))).ResponseTime = 0 ∧
    (Ping testTimeoutChecker 0
      (.transportError "context deadline exceeded" (1 * Millisecond))).ResponseTime ≠
      (Exchange.transportError "context deadline exceeded" (1 * Millisecond)).elapsed := by
  decide

/-- C7, amended: when request construction fails or the network call fails, the `Result` of
`Ping` has `Error` set, `Status` 0 and `ResponseTime` 0, however much time went by before
the failure. -/
theorem Ping_failure (c : Checker) (start : Int) (err : String) (elapsed : Duration) :
    ((Ping c start (.requestError err elapsed)).Error ≠ none ∧
      (Ping c start (.requestError err elapsed)).Status = 0 ∧
      (Ping c start (.requestError err elapsed)).ResponseTime = 0) ∧
    ((Ping c start (.transportError err elapsed)).Error ≠ none ∧
      (Ping c start (.transportError err elapsed)).Status = 0 ∧
      (Ping c start (.transportError err elapsed)).ResponseTime = 0) := by
  simp [Ping]

/-- C8: `Ping` never reads the `Timeout` field of the checker, so changing it changes
nothing; the checker of `TestChecker`, with `Timeout` set to 1 ms but a client whose
timeout is still one second, gets the 200 reply of the 50 ms server and returns no
`Error`. -/
theorem Ping_ignores_Timeout :
    (∀ (c : Checker) (t : Duration) (start : Int) (ctx : Option Duration) (srv : Server),
      PingServer { c with Timeout := t } start ctx srv = PingServer c start ctx srv) ∧
    testTimeoutChecker.Timeout = 1000000 ∧ testServer.delay = 50000000 ∧
    testTimeoutChecker.Client.Timeout = 1000000000 ∧
    (PingServer testTimeoutChecker 0 none testServer).Error = none ∧
    (PingServer testTimeoutChecker 0 none testServer).Status = 200 := by
  refine ⟨fun _ _ _ _ _ => rfl, ?_, ?_, ?_, ?_, ?_⟩ <;> decide

/-! ## LoadConfig -/

/-- The digit loop succeeds exactly on strings of digits, with the value they denote. -/
theorem parseDigits_eq (ds : List Char) :
    ∀ acc : Nat, parseDigits ds acc =
      if ds.all Char.isDigit then some (ds.foldl (fun n c => n * 10 + (c.toNat - 48)) acc)
      else none := by
  induction ds with
  | nil => intro acc; simp [parseDigits]
  | cons d ds ih =>
      intro acc
      by_cases hd : d.isDigit = true
      · simp [parseDigits, hd, ih]
      · simp [parseDigits, hd]

/-- `Atoi` in the words of the specification: it succeeds exactly on decimal integers that
fit an `int`, with their integer value. -/
theorem Atoi_eq (s : String) :
    Atoi s =
      if isDecimalInteger s = true ∧ fitsInt (integerValue s) = true then
        some (integerValue s)
      else none := by
  unfold Atoi isDecimalInteger integerValue unsignedPart fitsInt
  cases hs : s.toList with
  | nil => simp
  | cons c cs =>
      by_cases hm : c = '-'
      · subst hm
        cases cs with
        | nil => simp
        | cons d ds =>
            simp only [parseDigits_eq, digitsValue]
            by_cases hall : (d :: ds).all Char.isDigit = true
            · simp [hall]
              generalize List.foldl _ _ ds = n
              split_ifs <;> first | rfl | (exfalso; omega)
            · simp [hall]
      · by_cases hp : c = '+'
        · subst hp
          cases cs with
          | nil => simp
          | cons d ds =>
              simp only [parseDigits_eq, digitsValue]
              by_cases hall : (d :: ds).all Char.isDigit = true
              · simp [hall]
                generalize List.foldl _ _ ds = n
                split_ifs <;> first | rfl | (exfalso; omega)
              · simp [hall]
        · simp only [parseDigits_eq, digitsValue]
          by_cases hall : (c :: cs).all Char.isDigit = true
          · simp [hall, hm, hp]
            generalize List.foldl _ _ cs = n
            split_ifs <;> first | rfl | (exfalso; omega)
          · simp [hall, hm, hp]

/-- One integer setting after the override from the environment. -/
theorem override_eq (env : String → Option String) (key : String) (dflt : Int) :
    (if Getenv env key ≠ "" then
        match Atoi (Getenv env key) with
        | some val => val
        | none => dflt
      else dflt) = settingFromEnvInRange env key dflt := by
  unfold settingFromEnvInRange Getenv
  cases hk : env key with
  | none => simp
  | some v =>
      simp only [Option.getD_some]
      by_cases hv : v = ""
      · subst hv
        simp [isDecimalInteger, unsignedPart]
      · rw [if_pos hv, Atoi_eq]
        by_cases hc : isDecimalInteger v = true ∧ fitsInt (integerValue v) = true
        · simp [hc]
        · rw [if_neg hc]
          simp only [Bool.and_eq_true, decide_eq_true_eq] at hc ⊢
          rw [if_neg hc]

/-- C9, as stated, fails: `CHECK_INTERVAL=9223372036854775808` is a decimal integer, yet
`LoadConfig("")` keeps the default 30, because `strconv.Atoi` reports a range error. -/
theorem LoadConfig_out_of_range :
    isDecimalInteger "9223372036854775808" = true ∧
    integerValue "9223372036854775808" = 9223372036854775808 ∧
    settingFromEnv (envCheckInterval "9223372036854775808") "CHECK_INTERVAL" 30
      = 9223372036854775808 ∧
    LoadConfig (fun _ => none) (fun _ c => .ok c) (envCheckInterval "9223372036854775808") ""
      = .ok { URLs := [], CheckInterval := 30, TimeoutSeconds := 5, SlowThreshold := 1000 } := by
  decide

/-- C9, amended: for every environment `LoadConfig("")` returns no error and a `Config` in
which `CheckInterval`, `TimeoutSeconds` and `SlowThreshold` are the integer values of
`CHECK_INTERVAL`, `TIMEOUT_SECONDS` and `SLOW_THRESHOLD` when the variable is set to a
decimal integer that fits a 64-bit `int`, and the defaults 30, 5 and 1000 otherwise; `URLs`
is `[v]` when `HEALTH_CHECK_URLS` is set to a non-empty `v`, and empty otherwise. -/
theorem LoadConfig_empty_path (readFile : String → Option String)
    (unmarshal : String → Config → Except String Config) (env : String → Option String) :
    LoadConfig readFile unmarshal env "" =
      .ok { URLs := urlsFromEnv env
            CheckInterval := settingFromEnvInRange env "CHECK_INTERVAL" 30
            TimeoutSeconds := settingFromEnvInRange env "TIMEOUT_SECONDS" 5
            SlowThreshold := settingFromEnvInRange env "SLOW_THRESHOLD" 1000 } := by
  rw [← override_eq env "CHECK_INTERVAL" 30, ← override_eq env "TIMEOUT_SECONDS" 5,
    ← override_eq env "SLOW_THRESHOLD" 1000]
  have hu : urlsFromEnv env =
      if Getenv env "HEALTH_CHECK_URLS" ≠ "" then [Getenv env "HEALTH_CHECK_URLS"] else [] := by
    unfold urlsFromEnv Getenv
    cases env "HEALTH_CHECK_URLS" <;> simp
  rw [hu]
  unfold LoadConfig
  simp only [ne_eq, not_true_eq_false, if_false]
  by_cases h0 : Getenv env "HEALTH_CHECK_URLS" = "" <;>
    by_cases h1 : Getenv env "CHECK_INTERVAL" = "" <;>
    by_cases h2 : Getenv env "TIMEOUT_SECONDS" = "" <;>
    by_cases h3 : Getenv env "SLOW_THRESHOLD" = "" <;>
    simp only [h0, h1, h2, h3, not_true_eq_false, not_false_eq_true, if_true, if_false] <;>
    (try cases Atoi (Getenv env "CHECK_INTERVAL")) <;>
    (try cases Atoi (Getenv env "TIMEOUT_SECONDS")) <;>
    (try cases Atoi (Getenv env "SLOW_THRESHOLD")) <;> rfl


/-! ## Aggregator -/

theorem reportAll_append (r : ConsoleReporter) (xs ys : List Result) :
    reportAll r (xs ++ ys) = reportAll (reportAll r xs) ys := by
  induction xs generalizing r with
  | nil => rfl
  | cons x xs ih => simp [reportAll, ih]

theorem Inv_Start (a : Aggregator) (r0 : ConsoleReporter) : Inv r0 (Start a r0) where
  order := by simp [Start, reportedIds, heldId]
  nodup := by simp [Start]
  handed_lt := by simp [Start]
  waiting := by
    intro i k id r h
    simp only [Start] at h
    split at h <;> cases h
  waiting_inj := by
    intro i j k1 k2 id r1 r2 h
    simp only [Start] at h
    split at h <;> cases h
  cover := by simp [Start]
  held := by simp [Start]
  reported_ok := by simp [Start]
  reporter_eq := by simp [Start, reportAll]

/-- A move that changes neither the logs nor which workers wait with which result, nor what
the result processor holds, preserves the invariant. -/
theorem Inv_congr {r0 : ConsoleReporter} {s t : RunState} (h : Inv r0 s)
    (hh : t.handed = s.handed) (hr : t.reported = s.reported) (hp : t.produced = s.produced)
    (hrep : t.reporter = s.reporter)
    (hw : ∀ j k id r, t.workers j = .sending k id r ↔ s.workers j = .sending k id r)
    (hheld : heldId t.consumer = heldId s.consumer)
    (hc : ∀ id r, t.consumer = .reporting (some id) r → s.consumer = .reporting (some id) r) :
    Inv r0 t where
  order := by rw [hh, hheld, h.order]; simp [reportedIds, hr]
  nodup := by rw [hh]; exact h.nodup
  handed_lt := by rw [hh, hp]; exact h.handed_lt
  waiting := by
    intro i k id r hi
    rw [hh, hp]
    exact h.waiting i k id r ((hw _ _ _ _).mp hi)
  waiting_inj := by
    intro i j k1 k2 id r1 r2 hi hj
    exact h.waiting_inj i j k1 k2 id r1 r2 ((hw _ _ _ _).mp hi) ((hw _ _ _ _).mp hj)
  cover := by
    intro id hid
    rw [hp] at hid
    rcases h.cover id hid with hm | ⟨i, k, r, hi⟩
    · left; rw [hh]; exact hm
    · right; exact ⟨i, k, r, (hw _ _ _ _).mpr hi⟩
  held := by
    intro id r hcon
    rw [hp]
    exact h.held id r (hc id r hcon)
  reported_ok := by rw [hr, hp]; exact h.reported_ok
  reporter_eq := by rw [hrep, hr]; exact h.reporter_eq

/-- Moving a worker that does not wait to a state in which it does not wait changes nothing
about who waits. -/
theorem setWorker_sending_iff (ws : Nat → WorkerState) (i : Nat) (w : WorkerState)
    (hold : ∀ k id r, ws i ≠ .sending k id r) (hnew : ∀ k id r, w ≠ .sending k id r)
    (j k id : Nat) (r : Result) :
    setWorker ws i w j = .sending k id r ↔ ws j = .sending k id r := by
  unfold setWorker
  by_cases hj : j = i
  · subst hj
    simp only [if_true]
    constructor
    · intro h; exact absurd h (hnew k id r)
    · intro h; exact absurd h (hold k id r)
  · simp [hj]

theorem getElem?_append_of_eq_some {α : Type} (l l2 : List α) (n : Nat) (x : α)
    (h : l[n]? = some x) : (l ++ l2)[n]? = some x := by
  have hlt : n < l.length := by
    by_contra hge
    rw [List.getElem?_eq_none (by omega)] at h
    cases h
  rw [List.getElem?_append_left hlt]
  exact h

theorem lt_length_of_getElem?_eq_some {α : Type} (l : List α) (n : Nat) (x : α)
    (h : l[n]? = some x) : n < l.length := by
  by_contra hge
  rw [List.getElem?_eq_none (by omega)] at h
  cases h

/-- The invariant survives a `Ping`: the new result gets the next number and waits at the
worker that produced it. -/
theorem Inv_ping {r0 : ConsoleReporter} {s : RunState} (h : Inv r0 s) (i k : Nat)
    (hi : s.workers i = .inner k) (result : Result) :
    Inv r0 { s with
      workers := setWorker s.workers i (.sending k s.produced.length result)
      produced := s.produced ++ [result] } where
  order := h.order
  nodup := h.nodup
  handed_lt := by
    intro id hid
    have := h.handed_lt id hid
    simp only [List.length_append, List.length_singleton]
    omega
  waiting := by
    intro j k1 id r hj
    simp only [setWorker] at hj
    by_cases hji : j = i
    · simp only [hji, if_true] at hj
      injection hj with h1 h2 h3
      subst h2
      subst h3
      refine ⟨by simp, ?_⟩
      intro hmem
      have := h.handed_lt _ hmem
      omega
    · simp only [hji, if_false] at hj
      obtain ⟨h1, h2⟩ := h.waiting j k1 id r hj
      exact ⟨getElem?_append_of_eq_some _ _ _ _ h1, h2⟩
  waiting_inj := by
    intro j1 j2 k1 k2 id r1 r2 hj1 hj2
    simp only [setWorker] at hj1 hj2
    by_cases h1 : j1 = i <;> by_cases h2 : j2 = i
    · rw [h1, h2]
    · exfalso
      simp only [h1, if_true] at hj1
      simp only [h2, if_false] at hj2
      injection hj1 with _ hid _
      have := lt_length_of_getElem?_eq_some _ _ _ (h.waiting j2 k2 id r2 hj2).1
      omega
    · exfalso
      simp only [h2, if_true] at hj2
      simp only [h1, if_false] at hj1
      injection hj2 with _ hid _
      have := lt_length_of_getElem?_eq_some _ _ _ (h.waiting j1 k1 id r1 hj1).1
      omega
    · simp only [h1, if_false] at hj1
      simp only [h2, if_false] at hj2
      exact h.waiting_inj j1 j2 k1 k2 id r1 r2 hj1 hj2
  cover := by
    intro id hid
    simp only [List.length_append, List.length_singleton] at hid
    by_cases hlt : id < s.produced.length
    · rcases h.cover id hlt with hm | ⟨j, k1, r, hj⟩
      · exact Or.inl hm
      · right
        refine ⟨j, k1, r, ?_⟩
        have hji : j ≠ i := by
          intro hji
          rw [hji, hi] at hj
          cases hj
        simp only [setWorker, hji, if_false]
        exact hj
    · right
      have hid2 : id = s.produced.length := by omega
      refine ⟨i, k, result, ?_⟩
      simp [setWorker, hid2]
  held := by
    intro id r hc
    exact getElem?_append_of_eq_some _ _ _ _ (h.held id r hc)
  reported_ok := by
    intro id r hm
    exact getElem?_append_of_eq_some _ _ _ _ (h.reported_ok id r hm)
  reporter_eq := h.reporter_eq

/-- The invariant survives a hand-over from worker `i` to the result processor. -/
theorem Inv_handoff {r0 : ConsoleReporter} {s : RunState} (h : Inv r0 s) (i k id : Nat)
    (r : Result) (hi : s.workers i = .sending k id r) (hc : s.consumer = .selecting) :
    Inv r0 { s with
      workers := setWorker s.workers i (.inner (k + 1))
      consumer := .reporting (some id) r
      handed := s.handed ++ [id] } where
  order := by
    have ho := h.order
    rw [hc] at ho
    simp only [heldId, List.append_nil] at ho
    show s.handed ++ [id] = reportedIds s ++ [id]
    rw [ho]
  nodup := by
    have hn := (h.waiting i k id r hi).2
    exact List.nodup_append.mpr ⟨h.nodup, List.nodup_singleton id, by
      intro x hx hx2
      rw [List.mem_singleton] at hx2
      subst hx2
      exact hn hx⟩
  handed_lt := by
    intro x hx
    rcases List.mem_append.mp hx with hx | hx
    · exact h.handed_lt x hx
    · rw [List.mem_singleton] at hx
      subst hx
      exact lt_length_of_getElem?_eq_some _ _ _ (h.waiting i k x r hi).1
  waiting := by
    intro j k1 id1 r1 hj
    simp only [setWorker] at hj
    by_cases hji : j = i
    · simp only [hji, if_true] at hj
      cases hj
    · simp only [hji, if_false] at hj
      obtain ⟨h1, h2⟩ := h.waiting j k1 id1 r1 hj
      refine ⟨h1, ?_⟩
      intro hm
      rcases List.mem_append.mp hm with hm | hm
      · exact h2 hm
      · rw [List.mem_singleton] at hm
        subst hm
        exact hji (h.waiting_inj j i k1 k id1 r1 r hj hi)
  waiting_inj := by
    intro j1 j2 k1 k2 id1 r1 r2 hj1 hj2
    simp only [setWorker] at hj1 hj2
    by_cases h1 : j1 = i
    · simp only [h1, if_true] at hj1
      cases hj1
    · by_cases h2 : j2 = i
      · simp only [h2, if_true] at hj2
        cases hj2
      · simp only [h1, if_false] at hj1
        simp only [h2, if_false] at hj2
        exact h.waiting_inj j1 j2 k1 k2 id1 r1 r2 hj1 hj2
  cover := by
    intro x hx
    rcases h.cover x hx with hm | ⟨j, k1, r1, hj⟩
    · exact Or.inl (List.mem_append_left _ hm)
    · by_cases hji : j = i
      · left
        rw [hji, hi] at hj
        injection hj with _ hid _
        rw [← hid]
        exact List.mem_append_right _ (List.mem_singleton_self _)
      · right
        refine ⟨j, k1, r1, ?_⟩
        simp only [setWorker, hji, if_false]
        exact hj
  held := by
    intro x r1 hx
    injection hx with h1 h2
    injection h1 with h1
    subst h1
    subst h2
    exact (h.waiting i k id r hi).1
  reported_ok := h.reported_ok
  reporter_eq := h.reporter_eq

/-- The invariant survives a `Report` call of the result processor. -/
theorem Inv_report {r0 : ConsoleReporter} {s : RunState} (h : Inv r0 s) (src : Option Nat)
    (r : Result) (hc : s.consumer = .reporting src r) :
    Inv r0 { s with
      reporter := (Report s.reporter r).state
      reported := s.reported ++ [(src, r)]
      consumer := .selecting } where
  order := by
    have ho := h.order
    rw [hc] at ho
    show s.handed = List.filterMap Prod.fst (s.reported ++ [(src, r)]) ++ heldId .selecting
    rw [ho]
    cases src <;> simp [reportedIds, heldId, List.filterMap_append]
  nodup := h.nodup
  handed_lt := h.handed_lt
  waiting := h.waiting
  waiting_inj := h.waiting_inj
  cover := h.cover
  held := by
    intro id r1 hx
    cases hx
  reported_ok := by
    intro id r1 hm
    rcases List.mem_append.mp hm with hm | hm
    · exact h.reported_ok id r1 hm
    · rw [List.mem_singleton] at hm
      injection hm with h1 h2
      subst h2
      exact h.held id r1 (by rw [hc, h1])
  reporter_eq := by
    show (Report s.reporter r).state = reportAll r0 ((s.reported ++ [(src, r)]).map Prod.snd)
    rw [List.map_append, reportAll_append, ← h.reporter_eq]
    rfl

/-- Every possible move preserves the invariant. -/
theorem Inv_step {r0 : ConsoleReporter} {a : Aggregator} {s t : RunState} {e : Event}
    (h : Inv r0 s) (hs : step a s e = some t) : Inv r0 t := by
  cases e with
  | cancel =>
      simp only [step, Option.some.injEq] at hs
      subst hs
      exact Inv_congr h rfl rfl rfl rfl (fun _ _ _ _ => Iff.rfl) rfl (fun _ _ hc => hc)
  | stop =>
      simp only [step, Stop] at hs
      split at hs
      · cases hs
      · injection hs with hs
        subst hs
        exact Inv_congr h rfl rfl rfl rfl (fun _ _ _ _ => Iff.rfl) rfl (fun _ _ hc => hc)
  | worker i start ex =>
      simp only [step] at hs
      split at hs
      · rename_i hw
        split at hs <;>
          (injection hs with hs
           subst hs
           exact Inv_congr h rfl rfl rfl rfl
             (setWorker_sending_iff _ _ _ (by simp [hw]) (by simp)) rfl (fun _ _ hc => hc))
      · rename_i k hw
        split at hs
        · injection hs with hs
          subst hs
          exact Inv_congr h rfl rfl rfl rfl
            (setWorker_sending_iff _ _ _ (by simp [hw]) (by simp)) rfl (fun _ _ hc => hc)
        · split at hs
          · injection hs with hs
            subst hs
            exact Inv_congr h rfl rfl rfl rfl
              (setWorker_sending_iff _ _ _ (by simp [hw]) (by simp)) rfl (fun _ _ hc => hc)
          · injection hs with hs
            subst hs
            exact Inv_ping h i k hw _
      · cases hs
      · cases hs
  | handoff i =>
      simp only [step] at hs
      split at hs
      · rename_i k id result hw hc
        injection hs with hs
        subst hs
        exact Inv_handoff h i k id result hw hc
      · cases hs
  | report =>
      simp only [step] at hs
      split at hs
      · rename_i src result hc
        injection hs with hs
        subst hs
        exact Inv_report h src result hc
      · cases hs
  | consumerExit =>
      simp only [step] at hs
      split at hs
      · rename_i hc
        split at hs
        · injection hs with hs
          subst hs
          exact Inv_congr h rfl rfl rfl rfl (fun _ _ _ _ => Iff.rfl)
            (by simp [hc, heldId]) (fun _ _ hx => by cases hx)
        · cases hs
      · cases hs
  | recvClosed =>
      simp only [step] at hs
      split at hs
      · rename_i hc
        split at hs
        · injection hs with hs
          subst hs
          exact Inv_congr h rfl rfl rfl rfl (fun _ _ _ _ => Iff.rfl)
            (by simp [hc, heldId]) (fun _ _ hx => by cases hx)
        · cases hs
      · cases hs
  | close =>
      simp only [step] at hs
      split at hs
      · injection hs with hs
        subst hs
        exact Inv_congr h rfl rfl rfl rfl (fun _ _ _ _ => Iff.rfl) rfl (fun _ _ hc => hc)
      · cases hs

/-- The invariant holds after every schedule. -/
theorem Inv_run {r0 : ConsoleReporter} {a : Aggregator} (evs : List Event) :
    ∀ {s t : RunState}, Inv r0 s → run a s evs = some t → Inv r0 t := by
  induction evs with
  | nil =>
      intro s t h hr
      simp only [run, Option.some.injEq] at hr
      subst hr
      exact h
  | cons e es ih =>
      intro s t h hr
      simp only [run] at hr
      cases hst : step a s e with
      | none => rw [hst] at hr; cases hr
      | some s1 =>
          rw [hst] at hr
          exact ih (Inv_step h hst) hr

/-- Once the result processor has returned, no move calls `Report` again, and a worker that
waits to hand over a result keeps waiting. -/
theorem step_consumer_exited {a : Aggregator} {s t : RunState} {e : Event}
    (hc : s.consumer = .exited) (hs : step a s e = some t) :
    t.consumer = .exited ∧ t.reported = s.reported ∧
      ∀ id, Waiting s id → Waiting t id := by
  have keep : ∀ (i : Nat) (w : WorkerState), (∀ k id r, s.workers i ≠ .sending k id r) →
      ∀ id, Waiting s id → ∃ j k r, setWorker s.workers i w j = .sending k id r := by
    intro i w hne id ⟨j, k, r, hj⟩
    refine ⟨j, k, r, ?_⟩
    have hji : j ≠ i := by
      intro hji
      rw [hji] at hj
      exact hne k id r hj
    simp only [setWorker, hji, if_false]
    exact hj
  cases e with
  | cancel =>
      simp only [step, Option.some.injEq] at hs
      subst hs
      exact ⟨hc, rfl, fun _ hw => hw⟩
  | stop =>
      simp only [step, Stop] at hs
      split at hs
      · cases hs
      · injection hs with hs
        subst hs
        exact ⟨hc, rfl, fun _ hw => hw⟩
  | worker i start ex =>
      simp only [step] at hs
      split at hs
      · rename_i hw
        split at hs <;>
          (injection hs with hs
           subst hs
           exact ⟨hc, rfl, keep i _ (by simp [hw])⟩)
      · rename_i k hw
        split at hs
        · injection hs with hs
          subst hs
          exact ⟨hc, rfl, keep i _ (by simp [hw])⟩
        · split at hs <;>
            (injection hs with hs
             subst hs
             exact ⟨hc, rfl, keep i _ (by simp [hw])⟩)
      · cases hs
      · cases hs
  | handoff i =>
      simp only [step] at hs
      split at hs
      · rename_i k id result hw hsel
        rw [hc] at hsel
        cases hsel
      · cases hs
  | report =>
      simp only [step] at hs
      split at hs
      · rename_i src result hrep
        rw [hc] at hrep
        cases hrep
      · cases hs
  | consumerExit =>
      simp only [step] at hs
      split at hs
      · rename_i hsel
        rw [hc] at hsel
        cases hsel
      · cases hs
  | recvClosed =>
      simp only [step] at hs
      split at hs
      · rename_i hsel
        rw [hc] at hsel
        cases hsel
      · cases hs
  | close =>
      simp only [step] at hs
      split at hs
      · injection hs with hs
        subst hs
        exact ⟨hc, rfl, fun _ hw => hw⟩
      · cases hs

/-- Once the result processor has returned, no schedule adds a `Report` call, and the
results that wait at a worker wait for ever. -/
theorem run_consumer_exited {a : Aggregator} (evs : List Event) :
    ∀ {s t : RunState}, s.consumer = .exited → run a s evs = some t →
      t.consumer = .exited ∧ t.reported = s.reported ∧
        ∀ id, Waiting s id → Waiting t id := by
  induction evs with
  | nil =>
      intro s t hc hr
      simp only [run, Option.some.injEq] at hr
      subst hr
      exact ⟨hc, rfl, fun _ hw => hw⟩
  | cons e es ih =>
      intro s t hc hr
      simp only [run] at hr
      cases hst : step a s e with
      | none => rw [hst] at hr; cases hr
      | some s1 =>
          rw [hst] at hr
          obtain ⟨h1, h2, h3⟩ := step_consumer_exited hc hst
          obtain ⟨h4, h5, h6⟩ := ih h1 hr
          exact ⟨h4, h5.trans h2, fun id hw => h6 id (h3 id hw)⟩

/-- C10, as stated, fails. One worker, one endpoint: the worker pings, `Stop()` is called
before the result is handed over, and the result processor takes `<-a.done` and returns.
The `Ping` result then waits at the worker for ever: whatever happens next, `Report` is
never called. -/
theorem run_stopDuringPing_never_reported :
    ∃ s, run oneWorker (Start oneWorker NewConsoleReporter) stopDuringPing = some s ∧
      s.produced.length = 1 ∧ Waiting s 0 ∧ s.consumer = .exited ∧ s.reported = [] ∧
      ∀ evs t, run oneWorker s evs = some t → Waiting t 0 ∧ t.reported = [] := by
  refine ⟨_, rfl, rfl, ⟨0, 0, _, rfl⟩, rfl, rfl, ?_⟩
  intro evs t ht
  obtain ⟨_, h2, h3⟩ := run_consumer_exited evs rfl ht
  exact ⟨h3 0 ⟨0, 0, _, rfl⟩, h2⟩

/-- C10, amended: in every state of every run (any worker count, any endpoint list, any
schedule, `Stop()` and cancellation at any moment)
* no `Ping` result is passed to `Report` twice, and what is passed under a result's number
  is that result;
* the `Ping` results are passed to `Report` in the order in which the result processor
  received them from the queue, all of them but possibly the one it has just received, and
  that one is passed by its next move;
* a `Ping` result has been received from the queue or still waits at its worker, never
  both;
* once the result processor has returned, `Report` is not called any more, so a result that
  still waits at its worker is never reported;
* the reporter is the initial one after exactly the logged `Report` calls. -/
theorem run_reports (a : Aggregator) (r0 : ConsoleReporter) (evs : List Event) (s : RunState)
    (h : run a (Start a r0) evs = some s) :
    (reportedIds s).Nodup ∧
    (∀ id r, (some id, r) ∈ s.reported → s.produced[id]? = some r) ∧
    s.handed = reportedIds s ++ heldId s.consumer ∧
    (∀ id, id < s.produced.length → (id ∈ s.handed ↔ ¬ Waiting s id)) ∧
    (∀ src r, s.consumer = .reporting src r →
      ∃ t, step a s .report = some t ∧ t.reported = s.reported ++ [(src, r)] ∧
        reportedIds t = s.handed) ∧
    (s.consumer = .exited → ∀ evs2 t, run a s evs2 = some t → t.reported = s.reported) ∧
    s.reporter = reportAll r0 (s.reported.map Prod.snd) := by
  have hinv : Inv r0 s := Inv_run evs (Inv_Start a r0) h
  refine ⟨?_, hinv.reported_ok, hinv.order, ?_, ?_, ?_, hinv.reporter_eq⟩
  · have hn := hinv.nodup
    rw [hinv.order] at hn
    exact (List.nodup_append.mp hn).1
  · intro id hid
    constructor
    · rintro hm ⟨i, k, r, hw⟩
      exact (hinv.waiting i k id r hw).2 hm
    · intro hnw
      rcases hinv.cover id hid with hm | hw
      · exact hm
      · exact absurd hw hnw
  · intro src r hc
    refine ⟨{ s with
        reporter := (Report s.reporter r).state
        reported := s.reported ++ [(src, r)]
        consumer := .selecting }, by simp only [step, hc], rfl, ?_⟩
    have ho := hinv.order
    rw [hc] at ho
    rw [ho]
    cases src <;> simp [reportedIds, heldId, List.filterMap_append]
  · intro hc evs2 t ht
    exact (run_consumer_exited evs2 hc ht).2.1

/-- C10 amended, on a run in which the result is handed over and reported before
`Stop()`. -/
theorem run_reports_witness :
    ∃ s, run oneWorker (Start oneWorker NewConsoleReporter) reportThenStop = some s ∧
      s.produced.length = 1 ∧ s.handed = [0] ∧ reportedIds s = [0] ∧
      (reportedIds s).Nodup ∧
      s.reporter = reportAll NewConsoleReporter (s.reported.map Prod.snd) :=
  ⟨_, rfl, rfl, rfl, rfl,
    (run_reports oneWorker NewConsoleReporter reportThenStop _ rfl).1,
    (run_reports oneWorker NewConsoleReporter reportThenStop _ rfl).2.2.2.2.2.2⟩

end HealthChecker
